import Mathlib

/-!
Verification development for the PGN validator/corrector (`validator.go`).

A PGN file is processed line by line.  We model a line as a `List Char`
(the Go scanner strips the line terminator, so lines never contain `'\n'`).
Each Go function of the core engine is translated into an executable Lean
definition below; theorems about the spec's claims follow the definitions.
-/

namespace PGN

/-- A physical line of the input file, without its terminator. -/
abbrev Line := List Char

/-- Whitespace as decided by Go's `unicode.IsSpace` (the Unicode White_Space
property), which is what `strings.TrimSpace` uses.  Expressed over code
points. -/
def isGoSpace (c : Char) : Bool :=
  let n := c.toNat
  n == 9 || n == 10 || n == 11 || n == 12 || n == 13 || n == 32 ||
    n == 0x85 || n == 0xa0 || n == 0x1680 || (0x2000 ≤ n && n ≤ 0x200a) ||
    n == 0x2028 || n == 0x2029 || n == 0x202f || n == 0x205f || n == 0x3000

/-- `strings.TrimSpace`: drop `isGoSpace` characters from both ends. -/
def trimSpace (l : Line) : Line :=
  ((l.dropWhile isGoSpace).reverse.dropWhile isGoSpace).reverse

/-- The regexp class `\d` (Go regexps are ASCII here): `0`–`9`. -/
def isDigitC (c : Char) : Bool := 48 ≤ c.toNat && c.toNat ≤ 57

/-- The regexp class `\w`: `[0-9A-Za-z_]`. -/
def isWordChar (c : Char) : Bool :=
  isDigitC c || (65 ≤ c.toNat && c.toNat ≤ 90) ||
    (97 ≤ c.toNat && c.toNat ≤ 122) || c.toNat == 95

/-- The regexp class `\s` in Go regexps: `[\t\n\f\r ]`. -/
def isRegexSpace (c : Char) : Bool :=
  let n := c.toNat
  n == 9 || n == 10 || n == 12 || n == 13 || n == 32

/-- Board file letter `a`–`h`. -/
def isFileChar (c : Char) : Bool := 97 ≤ c.toNat && c.toNat ≤ 104

/-- Board rank digit `1`–`8`. -/
def isRankChar (c : Char) : Bool := 49 ≤ c.toNat && c.toNat ≤ 56

/-- ASCII lowercasing of one character; `strings.ToLower` restricted to the
ASCII range, which is all that can occur in a `\w+` tag name. -/
def asciiLower (c : Char) : Char :=
  if 65 ≤ c.toNat && c.toNat ≤ 90 then Char.ofNat (c.toNat + 32) else c

/-- The distinct diagnostics `validator.go` can append, one constructor per
`fmt.Sprintf` call site, carrying the formatted arguments. -/
inductive Msg where
  | malformedTag (line : Line)
  | invalidDate (value : Line)
  | dateAutoCorrected (old new : Line)
  | invalidResult (value : Line)
  | invalidMoveChars
  | unbalancedParens
  | unbalancedBraces
  | improperNesting
  | moveOutOfSequence (expected found : Nat)
  | invalidMove (move : Line) (moveNumber : Nat)
  deriving DecidableEq, Repr

/-- `tagPattern = ^\[(\w+)\s+"(.*)"\]$` applied to a whole line, returning the
two capture groups (tag name, tag value).  The adjacent classes `\w`, `\s`,
`"` are pairwise disjoint so the greedy Go (leftmost-first) match is the
maximal-munch parse below; the greedy `(.*)"\]$` makes the value run up to
the final `"]`, and `.` does not match `'\n'`. -/
def tagMatch (l : Line) : Option (Line × Line) :=
  match l with
  | '[' :: rest =>
    let name := rest.takeWhile isWordChar
    if name.isEmpty then none
    else
      let r2 := rest.drop name.length
      let sp := r2.takeWhile isRegexSpace
      if sp.isEmpty then none
      else
        match r2.drop sp.length with
        | '"' :: r4 =>
          match r4.reverse with
          | ']' :: '"' :: revValue =>
            let value := revValue.reverse
            if value.contains '\n' then none else some (name, value)
          | _ => none
        | _ => none
  | _ => none

/-- `correctDatePattern = ^\d{4}\.\d{2}\.\d{2}$`. -/
def correctDateMatch (v : Line) : Bool :=
  match v with
  | [y1, y2, y3, y4, s1, m1, m2, s2, d1, d2] =>
    isDigitC y1 && isDigitC y2 && isDigitC y3 && isDigitC y4 && s1 == '.' &&
      isDigitC m1 && isDigitC m2 && s2 == '.' && isDigitC d1 && isDigitC d2
  | _ => false

/-- `wildcardDatePattern = ^\?{4}\.\?{2}\.\?{2}$`. -/
def wildcardDateMatch (v : Line) : Bool :=
  match v with
  | [y1, y2, y3, y4, s1, m1, m2, s2, d1, d2] =>
    y1 == '?' && y2 == '?' && y3 == '?' && y4 == '?' && s1 == '.' &&
      m1 == '?' && m2 == '?' && s2 == '.' && d1 == '?' && d2 == '?'
  | _ => false

/-- `datePatternISO = ^(\d{4})-(\d{2})-(\d{2})$`, returning the three capture
groups in regexp order (year, month, day). -/
def isoMatch (v : Line) : Option (Line × Line × Line) :=
  match v with
  | [y1, y2, y3, y4, s1, m1, m2, s2, d1, d2] =>
    if isDigitC y1 && isDigitC y2 && isDigitC y3 && isDigitC y4 && s1 == '-' &&
        isDigitC m1 && isDigitC m2 && s2 == '-' && isDigitC d1 && isDigitC d2 then
      some ([y1, y2, y3, y4], [m1, m2], [d1, d2])
    else none
  | _ => none

/-- `datePatternDDMMYYYY = ^(\d{2})/(\d{2})/(\d{4})$`, groups in regexp order
(day, month, year). -/
def ddmmMatch (v : Line) : Option (Line × Line × Line) :=
  match v with
  | [d1, d2, s1, m1, m2, s2, y1, y2, y3, y4] =>
    if isDigitC d1 && isDigitC d2 && s1 == '/' && isDigitC m1 && isDigitC m2 &&
        s2 == '/' && isDigitC y1 && isDigitC y2 && isDigitC y3 && isDigitC y4 then
      some ([d1, d2], [m1, m2], [y1, y2, y3, y4])
    else none
  | _ => none

/-- `datePatternYYYYMMDD = ^(\d{4})/(\d{2})/(\d{2})$`, groups (year, month,
day). -/
def ymdSlashMatch (v : Line) : Option (Line × Line × Line) :=
  match v with
  | [y1, y2, y3, y4, s1, m1, m2, s2, d1, d2] =>
    if isDigitC y1 && isDigitC y2 && isDigitC y3 && isDigitC y4 && s1 == '/' &&
        isDigitC m1 && isDigitC m2 && s2 == '/' && isDigitC d1 && isDigitC d2 then
      some ([y1, y2, y3, y4], [m1, m2], [d1, d2])
    else none
  | _ => none

/-- `datePatternNoSep = ^(\d{4})(\d{2})(\d{2})$`, groups (year, month, day). -/
def noSepMatch (v : Line) : Option (Line × Line × Line) :=
  match v with
  | [y1, y2, y3, y4, m1, m2, d1, d2] =>
    if isDigitC y1 && isDigitC y2 && isDigitC y3 && isDigitC y4 && isDigitC m1 &&
        isDigitC m2 && isDigitC d1 && isDigitC d2 then
      some ([y1, y2, y3, y4], [m1, m2], [d1, d2])
    else none
  | _ => none

/-- `tryFixDate`: trim the value, then try the four correction grammars in
source order — ISO `YYYY-MM-DD`, `DD/MM/YYYY` (day-first, the two date parts
swapped into the target order), `YYYY/MM/DD`, `YYYYMMDD` — first match wins.
`none` models the Go `error` return. -/
def tryFixDate (v0 : Line) : Option Line :=
  let v := trimSpace v0
  match isoMatch v with
  | some (y, m, d) => some (y ++ '.' :: m ++ '.' :: d)
  | none =>
    match ddmmMatch v with
    | some (d, m, y) => some (y ++ '.' :: m ++ '.' :: d)
    | none =>
      match ymdSlashMatch v with
      | some (y, m, d) => some (y ++ '.' :: m ++ '.' :: d)
      | none =>
        match noSepMatch v with
        | some (y, m, d) => some (y ++ '.' :: m ++ '.' :: d)
        | none => none

/-- `validateDate`: no issue when the value is already `YYYY.MM.DD` or
`????.??.??`; otherwise one issue — informational if `tryFixDate` succeeds,
an invalid-format report if it fails. -/
def validateDate (v : Line) : List Msg :=
  if correctDateMatch v || wildcardDateMatch v then []
  else
    match tryFixDate v with
    | some nd => [Msg.dateAutoCorrected v nd]
    | none => [Msg.invalidDate v]

/-- `validateResult`: the value must be one of the four literals. -/
def validateResult (v : Line) : List Msg :=
  if v == "1-0".data || v == "0-1".data || v == "1/2-1/2".data || v == "*".data then []
  else [Msg.invalidResult v]

/-- `validateTag`: parse the (already trimmed) line against `tagPattern`;
on failure report a malformed tag, on success run the Date/EventDate and
Result checks on the value, keyed by the lowercased name. -/
def validateTag (t : Line) : List Msg :=
  match tagMatch t with
  | none => [Msg.malformedTag t]
  | some (name, value) =>
    let lower := name.map asciiLower
    (if lower = "date".data ∨ lower = "eventdate".data then validateDate value else []) ++
      (if lower = "result".data then validateResult value else [])

/-- `validMovePattern = ^[a-zA-Z0-9\s\+\#\=\-\!\?\(\)\.\*\/\{\}]+$`: letters,
digits, regexp whitespace and the listed punctuation. -/
def validMoveChar (c : Char) : Bool :=
  let n := c.toNat
  (65 ≤ n && n ≤ 90) || (97 ≤ n && n ≤ 122) || isDigitC c || isRegexSpace c ||
    n == 43 || n == 35 || n == 61 || n == 45 || n == 33 || n == 63 ||
    n == 40 || n == 41 || n == 46 || n == 42 || n == 47 || n == 123 || n == 125

/-- Whole-line match of `validMovePattern` (anchored, one-or-more). -/
def validMoveLine (l : Line) : Bool := !l.isEmpty && l.all validMoveChar

/-- `checkBalancedDelimiters`: one running counter for the pair
`opc`/`clc`; a decrement below zero fails immediately, and the count must
return to zero at the end of the line. -/
def balLoop (opc clc : Char) : Line → Int → Bool
  | [], count => count == 0
  | c :: cs, count =>
    if c == opc then balLoop opc clc cs (count + 1)
    else if c == clc then
      if count - 1 < 0 then false else balLoop opc clc cs (count - 1)
    else balLoop opc clc cs count

/-- Go `checkBalancedDelimiters(line, open, close)`. -/
def checkBalancedDelimiters (l : Line) (opc clc : Char) : Bool := balLoop opc clc l 0

/-- One step of the nesting stack of `checkProperNesting`: push on an opener,
pop on a closer whose matching opener is on top, fail (`none`) otherwise. -/
def nestStep (stack : List Char) (c : Char) : Option (List Char) :=
  if c == '(' || c == '\x7b' then some (c :: stack)
  else if c == ')' then
    match stack with
    | '(' :: s => some s
    | _ => none
  else if c == '\x7d' then
    match stack with
    | '\x7b' :: s => some s
    | _ => none
  else some stack

/-- Run the nesting stack over a line; `none` is the early `return false` of
the Go loop. -/
def nestRun : Line → List Char → Option (List Char)
  | [], stack => some stack
  | c :: cs, stack =>
    match nestStep stack c with
    | some s => nestRun cs s
    | none => none

/-- Go `checkProperNesting`: the stack run must succeed and end empty. -/
def checkProperNesting (l : Line) : Bool :=
  match nestRun l [] with
  | some s => s.isEmpty
  | none => false

/-- The closing delimiter appended by `fixBalancedDelimiters` for a stacked
opener. -/
def closerOf (c : Char) : Char := if c == '(' then ')' else '\x7d'

/-- One character of `fixBalancedDelimiters`: the emitted characters and the
new stack.  A closer without its matching opener on top is skipped. -/
def fixStep (stack : List Char) (c : Char) : Line × List Char :=
  if c == '(' || c == '\x7b' then ([c], c :: stack)
  else if c == ')' then
    match stack with
    | '(' :: s => ([c], s)
    | _ => ([], stack)
  else if c == '\x7d' then
    match stack with
    | '\x7b' :: s => ([c], s)
    | _ => ([], stack)
  else ([c], stack)

/-- The loop of `fixBalancedDelimiters`; at end of line the still-open
delimiters are closed top-of-stack first. -/
def fixLoop : Line → List Char → Line
  | [], stack => stack.map closerOf
  | c :: cs, stack => (fixStep stack c).1 ++ fixLoop cs (fixStep stack c).2

/-- Go `fixBalancedDelimiters`. -/
def fixBalancedDelimiters (l : Line) : Line := fixLoop l []

/-- Go `removeComments`: drop `{`/`}` and everything between them; the flag
simply toggles (not depth-aware). -/
def removeComments : Line → Bool → Line
  | [], _ => []
  | c :: cs, inC =>
    if c == '\x7b' then removeComments cs true
    else if c == '\x7d' then removeComments cs false
    else if inC then removeComments cs inC
    else c :: removeComments cs inC

/-- Go `removeVariations`: drop `(`/`)` and everything inside them,
depth-counted; a `)` at depth 0 is dropped and leaves the depth at 0, which
is exactly Lean's truncated `Nat` subtraction. -/
def removeVariations : Line → Nat → Line
  | [], _ => []
  | c :: cs, depth =>
    if c == '(' then removeVariations cs (depth + 1)
    else if c == ')' then removeVariations cs (depth - 1)
    else if depth == 0 then c :: removeVariations cs depth
    else removeVariations cs depth

/-- One extracted occurrence of
`movePattern = (\d+)\.\s*([^\s]+)(?:\s+([^\s]+))?`: the move-number digits,
white's token, and optionally black's token. -/
structure MoveMatch where
  num : Line
  white : Line
  black : Option Line
  deriving DecidableEq

/-- Try `movePattern` anchored at the head of `l` (Go leftmost-first
semantics: every quantifier below is maximal-munch because the adjacent
classes are disjoint).  Returns the match and the rest of the line after
it. -/
def matchMoveAt (l : Line) : Option (MoveMatch × Line) :=
  let ds := l.takeWhile isDigitC
  if ds.isEmpty then none
  else
    match l.drop ds.length with
    | '.' :: r2 =>
      let r3 := r2.dropWhile isRegexSpace
      let w := r3.takeWhile (fun c => !isRegexSpace c)
      if w.isEmpty then none
      else
        let r4 := r3.drop w.length
        let sp2 := r4.takeWhile isRegexSpace
        let r5 := r4.drop sp2.length
        let b := r5.takeWhile (fun c => !isRegexSpace c)
        if !sp2.isEmpty && !b.isEmpty then
          some ({ num := ds, white := w, black := some b }, r5.drop b.length)
        else
          some ({ num := ds, white := w, black := none }, r4)
    | _ => none

/-- `movePattern.FindAllStringSubmatch`: scan left to right, emit each
leftmost non-overlapping match, resuming after it.  Every match consumes at
least two characters and every failed position one, so `l.length` bounds the
iteration count; the fuel only makes the recursion structural. -/
def findMovesF : Nat → Line → List MoveMatch
  | 0, _ => []
  | _, [] => []
  | fuel + 1, c :: cs =>
    match matchMoveAt (c :: cs) with
    | some (m, rest) => m :: findMovesF fuel rest
    | none => findMovesF fuel cs

/-- All `movePattern` matches of a line. -/
def findMoves (l : Line) : List MoveMatch := findMovesF l.length l

/-- `fmt.Sscanf(s, "%d", &n)` on a digit string into a Go `int`: the decimal
value, except that a value overflowing int64 leaves `n` at its zero value
because `Sscanf` errors out. -/
def goParseInt (ds : Line) : Nat :=
  let n := ds.foldl (fun a c => a * 10 + (c.toNat - 48)) 0
  if n < 2 ^ 63 then n else 0

/-- `strings.TrimRight`: drop trailing characters belonging to the cutset. -/
def trimRightIn (l : Line) (cut : List Char) : Line :=
  (l.reverse.dropWhile (fun c => cut.contains c)).reverse

/-- `^([a-h])?([a-h][1-8])=([QRBN])$` (`promotionPattern`). -/
def promotionMatch : Line → Bool
  | [f2, r2, '=', p] =>
    isFileChar f2 && isRankChar r2 && (p == 'Q' || p == 'R' || p == 'B' || p == 'N')
  | [f1, f2, r2, '=', p] =>
    isFileChar f1 && isFileChar f2 && isRankChar r2 &&
      (p == 'Q' || p == 'R' || p == 'B' || p == 'N')
  | _ => false

/-- The middle of `piecePattern`: `([a-h])?([1-8])?(x)?`, consumed greedily
(the three optional classes are pairwise disjoint, so greedy consumption is
equivalent to the regexp's existence semantics). -/
def pieceDisamb (m : Line) : Bool :=
  let m1 := match m with
    | c :: r => if isFileChar c then r else c :: r
    | [] => []
  let m2 := match m1 with
    | c :: r => if isRankChar c then r else c :: r
    | [] => []
  let m3 := match m2 with
    | c :: r => if c == 'x' then r else c :: r
    | [] => []
  m3.isEmpty

/-- `^([KQRBN])([a-h])?([1-8])?(x)?([a-h][1-8])$` (`piecePattern`).  The
destination square is necessarily the final two characters.  The Go code
re-extracts the piece letter after the match and re-checks it against
K/Q/R/B/N; that check is subsumed by the leading class. -/
def pieceMatch : Line → Bool
  | p :: rest =>
    (p == 'K' || p == 'Q' || p == 'R' || p == 'B' || p == 'N') &&
      (match rest.reverse with
       | r :: f :: midRev => isRankChar r && isFileChar f && pieceDisamb midRev.reverse
       | _ => false)
  | [] => false

/-- `^([a-h])(x)?([a-h][1-8])$` (`pawnPattern`). -/
def pawnMatch : Line → Bool
  | [f, df, dr] => isFileChar f && isFileChar df && isRankChar dr
  | [f, x, df, dr] => isFileChar f && x == 'x' && isFileChar df && isRankChar dr
  | _ => false

/-- `^[a-h][1-8]$` (`simplePawnPattern`). -/
def simplePawnMatch : Line → Bool
  | [f, r] => isFileChar f && isRankChar r
  | _ => false

/-- Go `isValidMoveNotation` (renamed: token-level move grammar): strip `!?`
annotations, accept the four game-result literals, accept castling after
stripping `+`/`#`, then try promotion, piece-move, pawn-capture and bare
destination patterns on the `+`/`#`-stripped token. -/
def isValidMove (mv0 : Line) : Bool :=
  let mv := trimRightIn mv0 ['!', '?']
  if mv == "1-0".data || mv == "0-1".data || mv == "1/2-1/2".data || mv == "*".data then
    true
  else
    let mvNoCheck := trimRightIn mv ['+', '#']
    if mvNoCheck == "O-O".data || mvNoCheck == "O-O-O".data ||
        mvNoCheck == "0-0".data || mvNoCheck == "0-0-0".data then
      true
    else
      let mv2 := trimRightIn mv ['+', '#']
      if promotionMatch mv2 then true
      else if pieceMatch mv2 then true
      else if pawnMatch mv2 then true
      else simplePawnMatch mv2

/-- The per-match loop of Go `validateMoveNotation`: a zero expectation is
the seed state (the first parsed number only seeds it); afterwards each
number must be the successor of the expectation, else one warning is emitted
and the expectation resynchronizes to the found number.  Each of the up to
two tokens of the match is then checked against the move grammar. -/
def movesIssues : List MoveMatch → Nat → List Msg
  | [], _ => []
  | m :: ms, expected =>
    let n := goParseInt m.num
    let wmsg := if isValidMove m.white then [] else [Msg.invalidMove m.white n]
    let bmsg :=
      match m.black with
      | some b => if isValidMove b then [] else [Msg.invalidMove b n]
      | none => []
    if expected = 0 then wmsg ++ bmsg ++ movesIssues ms n
    else
      if n ≠ expected + 1 then
        Msg.moveOutOfSequence (expected + 1) n :: (wmsg ++ bmsg ++ movesIssues ms n)
      else wmsg ++ bmsg ++ movesIssues ms (expected + 1)

/-- The comment- and variation-stripped text that Go `validateMoveNotation`
tokenizes. -/
def cleanMoveLine (l : Line) : Line := removeVariations (removeComments l false) 0

/-- Go `validateMoveNotation` (renamed): move-number sequencing plus
token-grammar checks over the cleaned line, expectation seeded at 0. -/
def validateMoveSeq (l : Line) : List Msg :=
  movesIssues (findMoves (cleanMoveLine l)) 0

/-- Go `validateMoves`: the four independent per-line checks followed by the
sequencing/token check, issues appended in source order. -/
def validateMoves (t : Line) : List Msg :=
  (if validMoveLine t then [] else [Msg.invalidMoveChars]) ++
    (if checkBalancedDelimiters t '(' ')' then [] else [Msg.unbalancedParens]) ++
    (if checkBalancedDelimiters t '\x7b' '\x7d' then [] else [Msg.unbalancedBraces]) ++
    (if checkProperNesting t then [] else [Msg.improperNesting]) ++
    validateMoveSeq t

/-- One line of the `ValidateFile` scan loop: trim; skip blank lines; a line
starting with `[` sets `inHeader` and goes to the tag checker; any other
non-blank line clears `inHeader` (if set) and goes to the movetext checker.
Returns the new `inHeader` flag and the issues of this line. -/
def scanStep (h : Bool) (raw : Line) : Bool × List Msg :=
  let t := trimSpace raw
  if t.isEmpty then (h, [])
  else if t.head? == some '[' then (true, validateTag t)
  else if h then (false, validateMoves t)
  else (h, validateMoves t)

/-- The `ValidateFile` scan loop over the remaining lines, carrying the
1-based line number and the `inHeader` flag, pairing each issue with its
line number. -/
def validateLoop : List Line → Nat → Bool → List (Nat × Msg)
  | [], _, _ => []
  | l :: ls, n, h =>
    ((scanStep h l).2).map (fun m => (n, m)) ++ validateLoop ls (n + 1) (scanStep h l).1

/-- Go `ValidateFile` on an already-opened line stream (I/O errors and the
progress bar have no effect on the issue list and are not modelled). -/
def validateFile (ls : List Line) : List (Nat × Msg) := validateLoop ls 1 true

/-- The `inHeader` flag after the validation scan has processed `ls`,
starting from its initial value `true`. -/
def inHeaderAfter (ls : List Line) : Bool :=
  ls.foldl (fun h l => (scanStep h l).1) true

/-- The last line of `ls` whose trimmed form is non-blank, if any. -/
def lastNonBlank (ls : List Line) : Option Line :=
  ls.reverse.find? (fun l => !(trimSpace l).isEmpty)

/-- The tag-branch rewrite of `WriteCorrectedFile`: if the trimmed line
parses as a tag whose lowercased name is `date`/`eventdate` and whose value
`tryFixDate` can fix, rebuild the line as `[<name> "<fixed>"]`; otherwise
emit the original line unchanged. -/
def correctTagLine (raw : Line) : Line :=
  match tagMatch (trimSpace raw) with
  | none => raw
  | some (name, value) =>
    let lower := name.map asciiLower
    if lower = "date".data ∨ lower = "eventdate".data then
      match tryFixDate value with
      | none => raw
      | some d => '[' :: (name ++ ' ' :: '"' :: (d ++ '"' :: [']']))
    else raw

/-- One line of the `WriteCorrectedFile` loop: tag-prefixed lines set
`inHeader` and take the tag rewrite; other non-blank lines clear `inHeader`;
then any non-blank line outside the header is passed through
`fixBalancedDelimiters`.  Returns the new flag and the emitted line (the
writer appends the `'\n'` terminator afterwards). -/
def correctStep (h : Bool) (raw : Line) : Bool × Line :=
  let t := trimSpace raw
  let p :=
    if t.head? == some '[' then (true, correctTagLine raw)
    else if !t.isEmpty && h then (false, raw)
    else (h, raw)
  if !p.1 && !t.isEmpty then (p.1, fixBalancedDelimiters p.2) else p

/-- The `WriteCorrectedFile` loop over the remaining lines. -/
def correctLoop : Bool → List Line → List Line
  | _, [] => []
  | h, l :: ls => (correctStep h l).2 :: correctLoop (correctStep h l).1 ls

/-- Go `WriteCorrectedFile` as a line-stream transformer, `inHeader`
starting `true`. -/
def correctLines (ls : List Line) : List Line := correctLoop true ls

/-- The strings actually handed to the output writer: each emitted line plus
its `"\n"` terminator. -/
def writtenLines (ls : List Line) : List Line :=
  (correctLines ls).map (fun l => l ++ ['\n'])

/-- The per-line output of the correction pass.  The emitted line does not
depend on the incoming `inHeader` flag (proved in
`correctStep_snd_const`), so the pass is the map of this function. -/
def correctLine (l : Line) : Line := (correctStep true l).2

/-- Reference reformulation of the spec's per-line issue routing (no
cross-line state): blank lines contribute nothing, `[`-prefixed lines their
tag issues, all other lines their movetext issues. -/
def lineIssues (l : Line) : List Msg :=
  let t := trimSpace l
  if t.isEmpty then []
  else if t.head? == some '[' then validateTag t
  else validateMoves t

/-- Reference reformulation: the numbered issue list obtained by processing
each line independently of all others. -/
def issuesFrom : Nat → List Line → List (Nat × Msg)
  | _, [] => []
  | n, l :: ls => (lineIssues l).map (fun m => (n, m)) ++ issuesFrom (n + 1) ls

theorem isGoSpace_eq_false_of_digit {c : Char} (h : isDigitC c = true) :
    isGoSpace c = false := by
  rw [Bool.eq_false_iff]
  intro hs
  simp only [isDigitC, Bool.and_eq_true, decide_eq_true_eq] at h
  simp only [isGoSpace, Bool.or_eq_true, beq_iff_eq, Bool.and_eq_true,
    decide_eq_true_eq] at hs
  omega

theorem dropWhile_eq_self_of_all {p : Char → Bool} {l : Line}
    (h : ∀ c ∈ l, p c = false) : l.dropWhile p = l := by
  cases l with
  | nil => rfl
  | cons a t => simp [List.dropWhile_cons, h a (List.mem_cons_self a t)]

theorem trimSpace_eq_self {l : Line} (h : ∀ c ∈ l, isGoSpace c = false) :
    trimSpace l = l := by
  unfold trimSpace
  rw [dropWhile_eq_self_of_all h,
    dropWhile_eq_self_of_all (fun c hc => h c (List.mem_reverse.mp hc)),
    List.reverse_reverse]

theorem nestStep_space {s : List Char} {c : Char} (h : isGoSpace c = true) :
    nestStep s c = some s := by
  have hd : ∀ d : Char, isGoSpace d = true → ∀ e : Char, isGoSpace e = false →
      (d == e) = false := by
    intro d hdt e hef
    rw [Bool.eq_false_iff]
    intro hb
    rw [beq_iff_eq] at hb
    subst hb
    rw [hdt] at hef
    exact Bool.true_eq_false.mp hef
  have h1 := hd c h '(' (by decide)
  have h2 := hd c h '\x7b' (by decide)
  have h3 := hd c h ')' (by decide)
  have h4 := hd c h '\x7d' (by decide)
  simp [nestStep, h1, h2, h3, h4]

theorem nestRun_append (l1 l2 : Line) (s : List Char) :
    nestRun (l1 ++ l2) s =
      match nestRun l1 s with
      | some s2 => nestRun l2 s2
      | none => none := by
  induction l1 generalizing s with
  | nil => rfl
  | cons c cs ih =>
    rw [List.cons_append]
    cases hst : nestStep s c with
    | some s1 => simp only [nestRun, hst]; exact ih s1
    | none => simp only [nestRun, hst]

theorem nestRun_spaces {l : Line} (h : ∀ c ∈ l, isGoSpace c = true)
    (s : List Char) : nestRun l s = some s := by
  induction l generalizing s with
  | nil => rfl
  | cons c cs ih =>
    simp only [nestRun, nestStep_space (h c (List.mem_cons_self c cs))]
    exact ih (fun x hx => h x (List.mem_cons_of_mem c hx)) s

theorem exists_trim_decomp (l : Line) :
    ∃ a b, l = a ++ trimSpace l ++ b ∧ (∀ c ∈ a, isGoSpace c = true) ∧
      ∀ c ∈ b, isGoSpace c = true := by
  refine ⟨l.takeWhile isGoSpace,
    ((l.dropWhile isGoSpace).reverse.takeWhile isGoSpace).reverse, ?_, ?_, ?_⟩
  · conv_lhs => rw [← List.takeWhile_append_dropWhile isGoSpace l]
    rw [List.append_assoc]
    congr 1
    conv_lhs => rw [← List.reverse_reverse (l.dropWhile isGoSpace),
      ← List.takeWhile_append_dropWhile isGoSpace (l.dropWhile isGoSpace).reverse,
      List.reverse_append]
    rfl
  · exact fun c hc => List.mem_takeWhile_imp hc
  · exact fun c hc => List.mem_takeWhile_imp (List.mem_reverse.mp hc)

theorem properNesting_trimSpace (l : Line) :
    checkProperNesting (trimSpace l) = checkProperNesting l := by
  obtain ⟨a, b, hl, ha, hb⟩ := exists_trim_decomp l
  conv_rhs => rw [hl]
  unfold checkProperNesting
  rw [nestRun_append, nestRun_append, nestRun_spaces ha]
  cases h : nestRun (trimSpace l) [] with
  | some s2 => simp only [h, nestRun_spaces hb]
  | none => simp only [h]

theorem fixStep_of_nestStep {s s2 : List Char} {c : Char}
    (h : nestStep s c = some s2) : fixStep s c = ([c], s2) := by
  unfold nestStep at h
  unfold fixStep
  split_ifs at h ⊢
  · rw [Option.some_inj.mp h]
  · split at h
    · rw [Option.some_inj.mp h]
    · exact absurd h (by simp)
  · split at h
    · rw [Option.some_inj.mp h]
    · exact absurd h (by simp)
  · rw [Option.some_inj.mp h]

theorem fixLoop_of_nestRun {l : Line} {s s2 : List Char}
    (h : nestRun l s = some s2) : fixLoop l s = l ++ s2.map closerOf := by
  induction l generalizing s with
  | nil =>
    simp only [nestRun, Option.some_inj] at h
    rw [h]
    rfl
  | cons c cs ih =>
    simp only [nestRun] at h
    cases hst : nestStep s c with
    | none => rw [hst] at h; exact absurd h (by simp)
    | some s1 =>
      rw [hst] at h
      simp only [fixLoop, fixStep_of_nestStep hst]
      rw [ih h]
      rfl

theorem fix_id_of_properNesting {l : Line} (h : checkProperNesting l = true) :
    fixBalancedDelimiters l = l := by
  unfold checkProperNesting at h
  cases hr : nestRun l [] with
  | none => rw [hr] at h; exact absurd h (by simp)
  | some s =>
    rw [hr] at h
    simp only [List.isEmpty_iff] at h
    subst h
    unfold fixBalancedDelimiters
    rw [fixLoop_of_nestRun hr]
    simp

theorem correctStep_snd_const (h : Bool) (l : Line) :
    (correctStep h l).2 = correctLine l := by
  unfold correctLine correctStep
  by_cases h1 : ((trimSpace l).head? == some '[') = true
  · simp only [h1, if_true]
  · by_cases h2 : (trimSpace l).isEmpty = true
    · cases h <;> simp [h1, h2]
    · cases h <;> simp [h1, h2]

theorem correctLoop_eq_map (h : Bool) (ls : List Line) :
    correctLoop h ls = ls.map correctLine := by
  induction ls generalizing h with
  | nil => rfl
  | cons l t ih => simp only [correctLoop, List.map_cons, correctStep_snd_const, ih]

theorem scanStep_snd_const (h : Bool) (l : Line) :
    (scanStep h l).2 = lineIssues l := by
  unfold scanStep lineIssues
  by_cases h1 : (trimSpace l).isEmpty = true
  · simp [h1]
  · by_cases h2 : ((trimSpace l).head? == some '[') = true
    · simp [h1, h2]
    · cases h <;> simp [h1, h2]

theorem validateLoop_eq_issuesFrom (ls : List Line) :
    ∀ (n : Nat) (h : Bool), validateLoop ls n h = issuesFrom n ls := by
  induction ls with
  | nil => intro n h; rfl
  | cons l t ih =>
    intro n h
    simp only [validateLoop, issuesFrom, scanStep_snd_const, ih]

theorem issuesFrom_append (ls1 ls2 : List Line) :
    ∀ n, issuesFrom n (ls1 ++ ls2) =
      issuesFrom n ls1 ++ issuesFrom (n + ls1.length) ls2 := by
  induction ls1 with
  | nil => intro n; simp [issuesFrom]
  | cons l t ih =>
    intro n
    rw [List.cons_append]
    simp only [issuesFrom, ih (n + 1), List.append_assoc, List.length_cons]
    have he : n + 1 + t.length = n + (t.length + 1) := by omega
    rw [he]

theorem issuesFrom_eq_nil {ls : List Line} (h : ∀ l ∈ ls, lineIssues l = []) :
    ∀ n, issuesFrom n ls = [] := by
  induction ls with
  | nil => intro n; rfl
  | cons l t ih =>
    intro n
    simp only [issuesFrom, h l (List.mem_cons_self l t), List.map_nil,
      List.nil_append]
    exact ih (fun x hx => h x (List.mem_cons_of_mem l hx)) (n + 1)

theorem tryFixDate_eq_none_of_correct {v : Line} (h : correctDateMatch v = true) :
    tryFixDate v = none := by
  unfold correctDateMatch at h
  split at h
  case h_2 => exact absurd h (by simp)
  case h_1 y1 y2 y3 y4 s1 m1 m2 s2 d1 d2 =>
    simp only [Bool.and_eq_true, beq_iff_eq] at h
    obtain ⟨⟨⟨⟨⟨⟨⟨⟨⟨h1, h2⟩, h3⟩, h4⟩, h5⟩, h6⟩, h7⟩, h8⟩, h9⟩, h10⟩ := h
    subst h5; subst h8
    have htr : trimSpace [y1, y2, y3, y4, '.', m1, m2, '.', d1, d2] =
        [y1, y2, y3, y4, '.', m1, m2, '.', d1, d2] := by
      apply trimSpace_eq_self
      intro c hc
      simp only [List.mem_cons, List.not_mem_nil, or_false] at hc
      rcases hc with rfl | rfl | rfl | rfl | rfl | rfl | rfl | rfl | rfl | rfl
      · exact isGoSpace_eq_false_of_digit h1
      · exact isGoSpace_eq_false_of_digit h2
      · exact isGoSpace_eq_false_of_digit h3
      · exact isGoSpace_eq_false_of_digit h4
      · decide
      · exact isGoSpace_eq_false_of_digit h6
      · exact isGoSpace_eq_false_of_digit h7
      · decide
      · exact isGoSpace_eq_false_of_digit h9
      · exact isGoSpace_eq_false_of_digit h10
    unfold tryFixDate
    rw [htr]
    have e1 : ('.' == '-') = false := by decide
    have e2 : ('.' == '/') = false := by decide
    have e3 : isDigitC '.' = false := by decide
    simp [isoMatch, ddmmMatch, ymdSlashMatch, noSepMatch, e1, e2, e3]

theorem tryFixDate_eq_none_of_wildcard {v : Line} (h : wildcardDateMatch v = true) :
    tryFixDate v = none := by
  unfold wildcardDateMatch at h
  split at h
  case h_2 => exact absurd h (by simp)
  case h_1 y1 y2 y3 y4 s1 m1 m2 s2 d1 d2 =>
    simp only [Bool.and_eq_true, beq_iff_eq] at h
    obtain ⟨⟨⟨⟨⟨⟨⟨⟨⟨h1, h2⟩, h3⟩, h4⟩, h5⟩, h6⟩, h7⟩, h8⟩, h9⟩, h10⟩ := h
    subst h1; subst h2; subst h3; subst h4; subst h5
    subst h6; subst h7; subst h8; subst h9; subst h10
    decide

theorem correctLine_eq_self {l : Line} (h : lineIssues l = []) :
    correctLine l = l := by
  unfold lineIssues at h
  by_cases hb : (trimSpace l).isEmpty = true
  · unfold correctLine correctStep
    have hh : ((trimSpace l).head? == some '[') = false := by
      rw [List.isEmpty_iff] at hb
      rw [hb]
      rfl
    simp [hh, hb]
  · by_cases ht : ((trimSpace l).head? == some '[') = true
    · -- tag line: no issue means a well-formed tag whose date value (if any)
      -- is already valid, hence not rewritable
      rw [if_neg hb, if_pos ht] at h
      have htag : correctTagLine l = l := by
        unfold validateTag at h
        unfold correctTagLine
        cases htm : tagMatch (trimSpace l) with
        | none => rfl
        | some nv =>
          rw [htm] at h
          obtain ⟨name, value⟩ := nv
          simp only at h ⊢
          by_cases hd : name.map asciiLower = "date".data ∨
              name.map asciiLower = "eventdate".data
          · rw [if_pos hd] at h ⊢
            have hvd : validateDate value = [] := (List.append_eq_nil.mp h).1
            unfold validateDate at hvd
            by_cases hcw : (correctDateMatch value || wildcardDateMatch value) = true
            · rcases Bool.or_eq_true_iff.mp hcw with hc | hw
              · rw [tryFixDate_eq_none_of_correct hc]
              · rw [tryFixDate_eq_none_of_wildcard hw]
            · rw [if_neg hcw] at hvd
              split at hvd <;> exact absurd hvd (by simp)
          · rw [if_neg hd] at h ⊢
      unfold correctLine correctStep
      simp [ht, htag]
    · -- movetext line: no issue means properly nested, so the delimiter
      -- repair is the identity
      rw [if_neg hb, if_neg ht] at h
      unfold validateMoves at h
      have hcomp := List.append_eq_nil.mp h
      have hcomp2 := List.append_eq_nil.mp hcomp.1
      have hnest : checkProperNesting (trimSpace l) = true := by
        by_cases hn : checkProperNesting (trimSpace l) = true
        · exact hn
        · have := hcomp2.2
          rw [if_neg hn] at this
          exact absurd this (by simp)
      rw [properNesting_trimSpace] at hnest
      unfold correctLine correctStep
      simp only [ht, Bool.false_eq_true, if_false, hb, Bool.not_eq_true]
      simp [hb, fix_id_of_properNesting hnest]

theorem map_correctLine_eq {ls : List Line} (h : ∀ l ∈ ls, lineIssues l = []) :
    ls.map correctLine = ls := by
  induction ls with
  | nil => rfl
  | cons l t ih =>
    rw [List.map_cons, correctLine_eq_self (h l (List.mem_cons_self l t)),
      ih (fun x hx => h x (List.mem_cons_of_mem l hx))]

theorem length_eq_four {l : Line} (h : l.length = 4) :
    ∃ a b c d, l = [a, b, c, d] := by
  cases l with
  | nil => simp at h
  | cons a t =>
    rw [List.length_cons] at h
    have h3 : t.length = 3 := by omega
    obtain ⟨b, c, d, ht⟩ := List.length_eq_three.mp h3
    exact ⟨a, b, c, d, by rw [ht]⟩

/-! ### Claim theorems -/

/-- C8: on the movetext line `({)}` both per-pair balance checks succeed
(each pair closes as often as it opens, never dipping negative), the
stack-based nesting check fails on the interleaving, and the line's full
movetext validation emits exactly the one improper-nesting warning. -/
theorem c8_nesting_vs_balance :
    checkBalancedDelimiters "(\x7b)\x7d".data '(' ')' = true ∧
    checkBalancedDelimiters "(\x7b)\x7d".data '\x7b' '\x7d' = true ∧
    checkProperNesting "(\x7b)\x7d".data = false ∧
    validateMoves "(\x7b)\x7d".data = [Msg.improperNesting] := by
  refine ⟨by decide, by decide, by decide, by decide⟩

/-- C9: the move-token grammar accepts the ten sample tokens and rejects
`Xe1` (not a piece letter), `b9` (rank out of range) and `Qj5` (file out of
range). -/
theorem c9_move_grammar :
    isValidMove "e4".data = true ∧ isValidMove "Nf3".data = true ∧
    isValidMove "O-O".data = true ∧ isValidMove "O-O-O".data = true ∧
    isValidMove "e8=Q".data = true ∧ isValidMove "exd5".data = true ∧
    isValidMove "Qh5+".data = true ∧ isValidMove "Qh4#".data = true ∧
    isValidMove "Nbd7".data = true ∧ isValidMove "R1c3".data = true ∧
    isValidMove "Xe1".data = false ∧ isValidMove "b9".data = false ∧
    isValidMove "Qj5".data = false := by
  decide

/-- C10: the validator keeps no state across lines that could influence the
issues: the scan loop equals, for every starting line number and every value
of the `inHeader` flag, the concatenation of each line's issues computed in
isolation (`issuesFrom`); in particular the movetext line `1. e4 e5`
followed by `5. Nf3 Nc6` yields no issue at all, since each line's first
move number only seeds the per-line expectation. -/
theorem c10_per_line_state :
    (∀ (ls : List Line) (n : Nat) (h : Bool), validateLoop ls n h = issuesFrom n ls) ∧
    validateFile ["1. e4 e5".data, "5. Nf3 Nc6".data] = [] :=
  ⟨fun ls n h => validateLoop_eq_issuesFrom ls n h, by decide⟩

/-- C6: the correction pass emits exactly one output line per input line —
it is the map of a per-line function, so the count matches and the order is
preserved 1:1 — and every string handed to the writer is newline-terminated. -/
theorem c6_one_to_one (ls : List Line) :
    (correctLines ls).length = ls.length ∧
    correctLines ls = ls.map correctLine ∧
    (writtenLines ls).all (fun o => o.getLast? == some '\n') = true := by
  have hmap : correctLines ls = ls.map correctLine := correctLoop_eq_map true ls
  refine ⟨by rw [hmap, List.length_map], hmap, ?_⟩
  rw [List.all_eq_true]
  intro o ho
  unfold writtenLines at ho
  obtain ⟨x, _, rfl⟩ := List.mem_map.mp ho
  simp [List.getLast?_concat]

/-- C1 (counterexample): the `in_header` flag is not monotonic within a
single run.  After the single movetext line `e4` the flag is `false`, and
after the further tag line `[Event "x"]` of the same run it is `true`
again — a `false → true` transition. -/
theorem c1_counterexample :
    inHeaderAfter ["e4".data] = false ∧
    inHeaderAfter ["e4".data, "[Event \"x\"]".data] = true := by
  decide

/-- C1 (amended): `in_header` starts `true`, is set `true` by every line
whose trimmed form starts with `[` regardless of the previous state, set
`false` by every other non-blank line, and left unchanged by blank lines;
equivalently, after any prefix of the run it is `true` iff the last
non-blank line seen so far (if any) starts with `[`.  It is not monotonic:
a tag line after movetext flips it back to `true`. -/
theorem c1_amended (ls : List Line) :
    inHeaderAfter ls =
      match lastNonBlank ls with
      | none => true
      | some l => (trimSpace l).head? == some '[' := by
  induction ls using List.reverseRecOn with
  | nil => rfl
  | append_singleton t l ih =>
    unfold inHeaderAfter at ih ⊢
    rw [List.foldl_append]
    unfold lastNonBlank at ih ⊢
    rw [List.reverse_append]
    simp only [List.reverse_cons, List.reverse_nil, List.nil_append,
      List.singleton_append]
    rw [List.find?_cons]
    by_cases hbl : (trimSpace l).isEmpty = true
    · have hp : (!(trimSpace l).isEmpty) = false := by rw [hbl]; rfl
      rw [hp]
      have hkeep : ∀ h, (scanStep h l).1 = h := by
        intro h
        unfold scanStep
        simp [hbl]
      simp only [List.foldl_cons, List.foldl_nil]
      rw [hkeep]
      exact ih
    · have hbf : (trimSpace l).isEmpty = false := Bool.eq_false_iff.mpr hbl
      have hp : (!(trimSpace l).isEmpty) = true := by rw [hbf]; rfl
      rw [hp]
      simp only [List.foldl_cons, List.foldl_nil]
      have hset : ∀ h, (scanStep h l).1 = ((trimSpace l).head? == some '[') := by
        intro h
        unfold scanStep
        by_cases hh : ((trimSpace l).head? == some '[') = true
        · simp [hbl, hh]
        · cases h <;> simp [hbl, hh]
      rw [hset]

/-- C5: the date check of a Date/EventDate value appends no issue exactly
when the value already matches `YYYY.MM.DD` or `????.??.??`; otherwise it
appends exactly one issue — the informational auto-correction notice
carrying `tryFixDate`'s result when the fix succeeds, and the
invalid-format report when it fails. -/
theorem c5_date_issues (v : Line) :
    (validateDate v = [] ↔ (correctDateMatch v = true ∨ wildcardDateMatch v = true)) ∧
    (validateDate v = [] ∨
      (∃ nd, tryFixDate v = some nd ∧ validateDate v = [Msg.dateAutoCorrected v nd]) ∨
      (tryFixDate v = none ∧ validateDate v = [Msg.invalidDate v])) := by
  unfold validateDate
  by_cases hcw : (correctDateMatch v || wildcardDateMatch v) = true
  · constructor
    · rw [if_pos hcw]
      simp [Bool.or_eq_true_iff.mp hcw]
    · left
      rw [if_pos hcw]
  · constructor
    · rw [if_neg hcw]
      constructor
      · intro he
        split at he <;> exact absurd he (by simp)
      · intro hor
        exfalso
        apply hcw
        rcases hor with h | h <;> simp [h]
    · right
      cases hf : tryFixDate v with
      | some nd => exact Or.inl ⟨nd, rfl, by rw [if_neg hcw]⟩
      | none => exact Or.inr ⟨rfl, by rw [if_neg hcw]⟩

/-- C3: for any input containing the header line `[Date "2024-01-15"]` whose
other lines each validate without issue, the validation pass produces
exactly one issue — the auto-correction notice, at that line's number — and
the correction pass rewrites exactly that line to `[Date "2024.01.15"]`,
emitting every other line byte-identical (the line terminator is re-added
by the writer). -/
theorem c3_date_auto_correct (pre post : List Line)
    (hpre : ∀ l ∈ pre, lineIssues l = [])
    (hpost : ∀ l ∈ post, lineIssues l = []) :
    validateFile (pre ++ ["[Date \"2024-01-15\"]".data] ++ post) =
      [(pre.length + 1,
        Msg.dateAutoCorrected "2024-01-15".data "2024.01.15".data)] ∧
    correctLines (pre ++ ["[Date \"2024-01-15\"]".data] ++ post) =
      pre ++ ["[Date \"2024.01.15\"]".data] ++ post := by
  have hdl : lineIssues "[Date \"2024-01-15\"]".data =
      [Msg.dateAutoCorrected "2024-01-15".data "2024.01.15".data] := by decide
  have hcl : correctLine "[Date \"2024-01-15\"]".data =
      "[Date \"2024.01.15\"]".data := by decide
  constructor
  · unfold validateFile
    rw [validateLoop_eq_issuesFrom]
    rw [issuesFrom_append, issuesFrom_append]
    rw [issuesFrom_eq_nil hpre, issuesFrom_eq_nil hpost]
    simp [issuesFrom, hdl, Nat.add_comm]
  · unfold correctLines
    rw [correctLoop_eq_map]
    rw [List.map_append, List.map_append]
    rw [map_correctLine_eq hpre, map_correctLine_eq hpost]
    simp [hcl]

/-- C3 witness: `c3_date_auto_correct` on a concrete four-line file — a
valid Event tag, the ISO date line, a blank line and a valid movetext
line. -/
theorem c3_witness :
    validateFile ["[Event \"Test\"]".data, "[Date \"2024-01-15\"]".data,
        "".data, "1. e4 e5 2. Nf3 Nc6".data] =
      [(2, Msg.dateAutoCorrected "2024-01-15".data "2024.01.15".data)] ∧
    correctLines ["[Event \"Test\"]".data, "[Date \"2024-01-15\"]".data,
        "".data, "1. e4 e5 2. Nf3 Nc6".data] =
      ["[Event \"Test\"]".data, "[Date \"2024.01.15\"]".data,
        "".data, "1. e4 e5 2. Nf3 Nc6".data] := by
  exact c3_date_auto_correct ["[Event \"Test\"]".data]
    ["".data, "1. e4 e5 2. Nf3 Nc6".data] (by decide) (by decide)

/-- C4: for every 4-digit `y` and 2-digit `m`, `d`, `tryFixDate` maps
`y-m-d` to `y.m.d` (ISO grammar), the concatenation `ymd` to `y.m.d`
(no-separator grammar), and `d/m/y` to `y.m.d` (fixed day-first reading of
the slash grammar); the grammars are tried in the cascade order of the
definition (ISO, DD/MM/YYYY, YYYY/MM/DD, YYYYMMDD — they are pairwise
disjoint in shape) and no numeric range check is performed, as the witness
`2024-13-40 ↦ 2024.13.40` shows; and whenever none of the four grammars
matches the trimmed value, `tryFixDate` fails with no corrected value. -/
theorem c4_tryFixDate_grammar (y m d : Line)
    (hy : y.length = 4) (hyd : y.all isDigitC = true)
    (hm : m.length = 2) (hmd : m.all isDigitC = true)
    (hd : d.length = 2) (hdd : d.all isDigitC = true) :
    tryFixDate (y ++ '-' :: m ++ '-' :: d) = some (y ++ '.' :: m ++ '.' :: d) ∧
    tryFixDate (y ++ m ++ d) = some (y ++ '.' :: m ++ '.' :: d) ∧
    tryFixDate (d ++ '/' :: m ++ '/' :: y) = some (y ++ '.' :: m ++ '.' :: d) ∧
    (∀ s : Line, isoMatch (trimSpace s) = none → ddmmMatch (trimSpace s) = none →
      ymdSlashMatch (trimSpace s) = none → noSepMatch (trimSpace s) = none →
      tryFixDate s = none) := by
  obtain ⟨a, b, c, e, rfl⟩ := length_eq_four hy
  obtain ⟨f, g, rfl⟩ := List.length_eq_two.mp hm
  obtain ⟨p, q, rfl⟩ := List.length_eq_two.mp hd
  simp only [List.all_cons, List.all_nil, Bool.and_eq_true, Bool.and_true] at hyd hmd hdd
  obtain ⟨ha, hb, hc, he⟩ := hyd
  obtain ⟨hf, hg⟩ := hmd
  obtain ⟨hp, hq⟩ := hdd
  have hdig : ∀ x : Char, isDigitC x = true → isGoSpace x = false :=
    fun x hx => isGoSpace_eq_false_of_digit hx
  have e1 : isDigitC '/' = false := by decide
  refine ⟨?_, ?_, ?_, ?_⟩
  · show tryFixDate [a, b, c, e, '-', f, g, '-', p, q] =
      some [a, b, c, e, '.', f, g, '.', p, q]
    have htr : trimSpace [a, b, c, e, '-', f, g, '-', p, q] =
        [a, b, c, e, '-', f, g, '-', p, q] := by
      apply trimSpace_eq_self
      intro x hx
      simp only [List.mem_cons, List.not_mem_nil, or_false] at hx
      rcases hx with rfl | rfl | rfl | rfl | rfl | rfl | rfl | rfl | rfl | rfl
      · exact hdig _ ha
      · exact hdig _ hb
      · exact hdig _ hc
      · exact hdig _ he
      · decide
      · exact hdig _ hf
      · exact hdig _ hg
      · decide
      · exact hdig _ hp
      · exact hdig _ hq
    unfold tryFixDate
    rw [htr]
    simp [isoMatch, ha, hb, hc, he, hf, hg, hp, hq]
  · show tryFixDate [a, b, c, e, f, g, p, q] = some [a, b, c, e, '.', f, g, '.', p, q]
    have htr : trimSpace [a, b, c, e, f, g, p, q] = [a, b, c, e, f, g, p, q] := by
      apply trimSpace_eq_self
      intro x hx
      simp only [List.mem_cons, List.not_mem_nil, or_false] at hx
      rcases hx with rfl | rfl | rfl | rfl | rfl | rfl | rfl | rfl
      · exact hdig _ ha
      · exact hdig _ hb
      · exact hdig _ hc
      · exact hdig _ he
      · exact hdig _ hf
      · exact hdig _ hg
      · exact hdig _ hp
      · exact hdig _ hq
    unfold tryFixDate
    rw [htr]
    simp [isoMatch, ddmmMatch, ymdSlashMatch, noSepMatch,
      ha, hb, hc, he, hf, hg, hp, hq]
  · show tryFixDate [p, q, '/', f, g, '/', a, b, c, e] =
      some [a, b, c, e, '.', f, g, '.', p, q]
    have htr : trimSpace [p, q, '/', f, g, '/', a, b, c, e] =
        [p, q, '/', f, g, '/', a, b, c, e] := by
      apply trimSpace_eq_self
      intro x hx
      simp only [List.mem_cons, List.not_mem_nil, or_false] at hx
      rcases hx with rfl | rfl | rfl | rfl | rfl | rfl | rfl | rfl | rfl | rfl
      · exact hdig _ hp
      · exact hdig _ hq
      · decide
      · exact hdig _ hf
      · exact hdig _ hg
      · decide
      · exact hdig _ ha
      · exact hdig _ hb
      · exact hdig _ hc
      · exact hdig _ he
    unfold tryFixDate
    rw [htr]
    simp [isoMatch, ddmmMatch, ha, hb, hc, he, hf, hg, hp, hq, e1]
  · intro s h1 h2 h3 h4
    unfold tryFixDate
    simp only [h1, h2, h3, h4]

/-- C4 witness: `c4_tryFixDate_grammar` at `y = 2024`, `m = 13`, `d = 40`,
showing in particular that the semantically impossible month 13 and day 40
are still "corrected". -/
theorem c4_witness :
    tryFixDate ("2024".data ++ '-' :: "13".data ++ '-' :: "40".data) =
      some ("2024".data ++ '.' :: "13".data ++ '.' :: "40".data) :=
  (c4_tryFixDate_grammar "2024".data "13".data "40".data (by decide) (by decide)
    (by decide) (by decide) (by decide) (by decide)).1

end PGN
